import Mathlib

/-!
Shallow embedding of `src/subtree/rabit/include/rabit/rabit-inl.h`:
the typed collective-reduce wrappers (operator catalog, fixed-layout and
serializing reducers), the container Broadcast wrappers, the tracker
printf helper and the checkpoint/version delegation layer of rabit.

Buffers of `DType` elements are embedded as `List α`; the flat byte
scratch buffers cut into `max_nbyte`-sized `MemoryFixSizeBuffer` windows
are embedded as `List (List β)`, one inner list per slot.  C++ reference
mutation `OP::Reduce(DType &dst, const DType &src)` becomes a pure
function returning the new `dst`; the `src` argument is `const` in the
source and immutable here by construction.  Engine facilities that are
declared but not implemented in this repository slice (the transport
engine's Allreduce_, Broadcast, and checkpoint state) are modelled from
the specification, and each such definition says so in its doc comment.
-/

namespace Rabit

namespace engine

namespace mpi

/-- Wire type enumeration `engine::mpi::DataType`: the closed set of wire
type tags for the eight supported scalar element types. -/
inductive DataType where
  | kChar
  | kUChar
  | kInt
  | kUInt
  | kLong
  | kULong
  | kFloat
  | kDouble
deriving DecidableEq, Repr

/-- Operator tag enumeration `engine::mpi::OpType`. -/
inductive OpType where
  | kMax
  | kMin
  | kSum
  | kBitwiseOR
deriving DecidableEq, Repr

/-- The eight supported scalar element types, the domain of the type tag
registry `GetType<DType>()`. -/
inductive ScalarType where
  | char
  | uchar
  | int
  | uint
  | long
  | ulong
  | float
  | double
deriving DecidableEq, Repr

/-- `engine::mpi::GetType<DType>()`: translate an element type to its wire
type tag; one template specialization per supported scalar type. -/
def GetType : ScalarType → DataType
  | .char => .kChar
  | .uchar => .kUChar
  | .int => .kInt
  | .uint => .kUInt
  | .long => .kLong
  | .ulong => .kULong
  | .float => .kFloat
  | .double => .kDouble

end mpi

end engine

namespace op

/-- `op::Max::kType`. -/
def Max.kType : engine.mpi.OpType := engine.mpi.OpType.kMax

/-- `op::Max::Reduce(dst, src)`: `if (dst < src) dst = src;` returning the
new value of `dst`. -/
def Max.Reduce {α : Type} [LinearOrder α] (dst src : α) : α :=
  if dst < src then src else dst

/-- `op::Min::kType`. -/
def Min.kType : engine.mpi.OpType := engine.mpi.OpType.kMin

/-- `op::Min::Reduce(dst, src)`: `if (dst > src) dst = src;` returning the
new value of `dst`. -/
def Min.Reduce {α : Type} [LinearOrder α] (dst src : α) : α :=
  if dst > src then src else dst

/-- `op::Sum::kType`. -/
def Sum.kType : engine.mpi.OpType := engine.mpi.OpType.kSum

/-- `op::Sum::Reduce(dst, src)`: `dst += src;`. -/
def Sum.Reduce {α : Type} [Add α] (dst src : α) : α :=
  dst + src

/-- `op::BitOR::kType`. -/
def BitOR.kType : engine.mpi.OpType := engine.mpi.OpType.kBitwiseOR

/-- `op::BitOR::Reduce(dst, src)`: `dst |= src;`. -/
def BitOR.Reduce {α : Type} [OrOp α] (dst src : α) : α :=
  dst ||| src

end op

/-- The in-place update loop `for (i = 0; i < n; ++i) l[i] = f(i, l[i])`
shared by the reducer adapters: process indices `0, 1, ..., n - 1` in
order, replacing element `i` with `f i` of its current value. -/
def loopSet {α : Type} [Inhabited α] (f : ℕ → α → α) (l : List α) : ℕ → List α
  | 0 => l
  | n + 1 => (loopSet f l n).set n (f n ((loopSet f l n).getD n default))

namespace op

/-- `op::Reducer<OP,DType>(src_, dst_, len, dtype)`: cast both opaque
buffers to `DType` arrays and run `OP::Reduce(dst[i], src[i])` for every
`i < len`; `combine` is the scalar `OP::Reduce` with the destination as
its first argument. -/
def Reducer {α : Type} [Inhabited α] (combine : α → α → α)
    (src dst : List α) (len : ℕ) : List α :=
  loopSet (fun i d => combine d (src.getD i default)) dst len

end op

/-- `std::vector` / `std::string` `resize(n)` semantics: truncate to `n`
elements, or pad at the end with default-initialized elements. -/
def resizeList {α : Type} [Inhabited α] (l : List α) (n : ℕ) : List α :=
  l.take n ++ List.replicate (n - l.length) default

/-- Engine-level transfers performed by the container Broadcast wrappers,
in order: the fixed-size length transfer, then (possibly) the payload
transfer of a given number of bytes. -/
inductive BEvent where
  | lenBroadcast (n : ℕ)
  | payloadBroadcast (nbytes : ℕ)
deriving DecidableEq, Repr

/-- Outcome of a container Broadcast on one participant: the final
container contents, whether `resize` was called, and the sequence of raw
engine Broadcast calls that were issued. -/
structure BroadcastResult (α : Type) where
  data : List α
  resized : Bool
  trace : List BEvent
deriving DecidableEq, Repr

/-- `Broadcast(std::vector<DType>*, root)` and `Broadcast(std::string*,
root)` (both follow the identical three-step shape), seen from one
participant. Modelled from the spec: the raw engine
`Broadcast(ptr, size, root)` copies `size` bytes from the root's buffer
into every participant's buffer, so after the length transfer the local
`size` variable holds the root container's length, and the payload
transfer overwrites the first `size` elements of the local (possibly
resized) container with the root's elements.  The wrapper broadcasts the
length, calls `resize` exactly when the local size differs, and issues
the payload transfer of `size * sizeof(DType)` bytes iff `size != 0`.
`sizeofElem` is `sizeof(DType)` (`sizeof(char) = 1` for the string
overload). -/
def Broadcast {α : Type} [Inhabited α] (rootData localData : List α)
    (sizeofElem : ℕ) : BroadcastResult α :=
  let size := rootData.length
  let l1 := if localData.length ≠ size then resizeList localData size else localData
  if size ≠ 0 then
    { data := rootData ++ l1.drop size,
      resized := decide (localData.length ≠ size),
      trace := [BEvent.lenBroadcast size, BEvent.payloadBroadcast (size * sizeofElem)] }
  else
    { data := l1,
      resized := decide (localData.length ≠ size),
      trace := [BEvent.lenBroadcast size] }

/-- vsnprintf(buf, size, fmt, args) per the C standard, with `out` the
full formatted output of `fmt`/`args`: writes at most `size - 1`
characters of `out` followed by one terminating NUL, leaving the rest of
the buffer untouched (and does nothing when `size = 0`). -/
def vsnprintfModel (buf : List Char) (size : ℕ) (out : List Char) : List Char :=
  if size = 0 then buf
  else
    let n := min out.length (size - 1)
    out.take (size - 1) ++ [Char.ofNat 0] ++ buf.drop (n + 1)

/-- `TrackerPrintf(fmt, ...)`: build `std::string msg(1 << 10, '\0')`,
`vsnprintf` the formatted output into it, and pass `msg` (whose length is
never changed by `vsnprintf`) to `TrackerPrint`.  Returns the string
handed to `TrackerPrint`; `out` is the formatted output of the
format-string application. -/
def TrackerPrintf (out : List Char) : List Char :=
  let kPrintBuffer : ℕ := 2 ^ 10
  let msg := List.replicate kPrintBuffer (Char.ofNat 0)
  vsnprintfModel msg kPrintBuffer out

/-- Modelled from the spec: the engine-held checkpoint state, `{version:
monotonically increasing integer, last committed global model, last
committed local model}`; before any checkpoint both committed models are
absent and the version is 0. -/
structure CheckpointState (G L : Type) where
  version : ℕ
  globalModel : Option G
  localModel : Option L

/-- The engine checkpoint state at computation start: version 0, nothing
committed. -/
def initState (G L : Type) : CheckpointState G L :=
  ⟨0, none, none⟩

/-- Modelled from the spec: `CheckPoint(global, local)` serializes both
models, commits them as the new checkpoint and increments the version by
exactly one. -/
def CheckPoint {G L : Type} (s : CheckpointState G L) (g : G) (l : L) :
    CheckpointState G L :=
  ⟨s.version + 1, some g, some l⟩

/-- Modelled from the spec: `LazyCheckPoint(global)` records the global
model as committed without serializing it and increments the version by
exactly one. -/
def LazyCheckPoint {G L : Type} (s : CheckpointState G L) (g : G) :
    CheckpointState G L :=
  ⟨s.version + 1, some g, s.localModel⟩

/-- `VersionNumber()`: the version number of the currently stored model. -/
def VersionNumber {G L : Type} (s : CheckpointState G L) : ℕ :=
  s.version

/-- Modelled from the spec: `LoadCheckPoint(global_model, local_model)`
returns the version of the checkpoint it restored and populates the two
caller-supplied models in place; with no committed checkpoint it returns
0 and leaves the caller-supplied models untouched. -/
def LoadCheckPoint {G L : Type} (s : CheckpointState G L) (g : G) (l : L) :
    ℕ × G × L :=
  match s.globalModel with
  | none => (0, g, l)
  | some cg => (s.version, cg, s.localModel.getD l)

/-- One checkpoint-taking call in a call sequence: a full `CheckPoint` or
a `LazyCheckPoint`. -/
inductive CkptCall (G L : Type) where
  | full (g : G) (l : L)
  | lazy (g : G)

/-- Apply one checkpoint call to the engine state. -/
def applyCall {G L : Type} (s : CheckpointState G L) :
    CkptCall G L → CheckpointState G L
  | .full g l => CheckPoint s g l
  | .lazy g => LazyCheckPoint s g

/-- Run a sequence of `CheckPoint` / `LazyCheckPoint` calls. -/
def runCalls {G L : Type} (calls : List (CkptCall G L))
    (s : CheckpointState G L) : CheckpointState G L :=
  calls.foldl applyCall s

/-- `utils::MemoryFixSizeBuffer(slot, nbytes)` followed by `Seek(0)` and
`Save`: overwrite the front of a fixed-size slot with the encoded bytes,
leaving the remainder of the slot unchanged. -/
def encodeSlot {β : Type} (slotBuf bs : List β) : List β :=
  bs ++ slotBuf.drop bs.length

/-- Total byte count of a slotted scratch buffer. -/
def totalBytes {β : Type} (slots : List (List β)) : ℕ :=
  (slots.map List.length).sum

/-- `SerializeReducerFunc_<DType>(src_, dst_, len_, dtype)`: for each slot
`i < len_`, open `nbytes`-sized windows on both buffers, `tsrc.Load(fsrc)`,
`tdst.Load(fdst)`, `tdst.Reduce(tsrc, nbytes)`, `fdst.Seek(0)`,
`tdst.Save(fdst)`.  `load`, `save` and `reduce` are the SerializableObject
capabilities of `DType`; `nbytes` is the slot size obtained from
`engine::ReduceHandle::TypeSize(dtype)`. -/
def SerializeReducerFunc_ {D β : Type} (load : List β → D) (save : D → List β)
    (reduce : D → D → ℕ → D) (nbytes : ℕ)
    (src dst : List (List β)) (len : ℕ) : List (List β) :=
  loopSet (fun i d => encodeSlot d (save (reduce (load d) (load (src.getD i [])) nbytes)))
    dst len

/-- Observable events of one `SerializeReducer<DType>::Allreduce` call:
the invocation of `prepare_fun` and the encoding (`Save`) of object `i`
into its slot. -/
inductive SREvent where
  | prepare
  | encode (i : ℕ)
deriving DecidableEq, Repr

/-- `SerializeReduceClosure<DType>::Run()`: call `prepare_fun(prepare_arg)`
when `prepare_fun != NULL`, then `Save` each `sendrecvobj[i]` into the
`max_nbyte`-aligned slot `i` of the scratch buffer.  Returns the updated
scratch slots and the event sequence in execution order. -/
def SerializeReduceClosure.Run {D β : Type} [Inhabited D] (save : D → List β)
    (sendrecvobj : List D) (hasPrepare : Bool)
    (slots : List (List β)) : List (List β) × List SREvent :=
  (loopSet (fun i sl => encodeSlot sl (save (sendrecvobj.getD i default)))
      slots sendrecvobj.length,
   (if hasPrepare then [SREvent.prepare] else [])
     ++ (List.range sendrecvobj.length).map SREvent.encode)

/-- Outcome of one `SerializeReducer<DType>::Allreduce` call: the objects
written back to `sendrecvobj`, the event trace, the scratch buffer size
after the `resize`, the scratch contents handed to the engine's byte
reduction, and the scratch contents it returned. -/
structure SRResult (D β : Type) where
  objs : List D
  trace : List SREvent
  scratchBytes : ℕ
  sentBuf : List (List β)
  recvBuf : List (List β)

/-- `SerializeReducer<DType>::Allreduce(sendrecvobj, max_nbyte, count,
prepare_fun, prepare_arg)` with `count = sendrecvobj.length`: resize the
scratch buffer `buffer_` to `max_nbyte * count` bytes, hand the closure to
`handle_.Allreduce`, then `Load` each result slot back into
`sendrecvobj[i]`.  Modelled from the spec: the engine behind
`handle_.Allreduce` either invokes the supplied closure exactly once
before reducing (`invokeClosure = true`, no cached replay result) or
skips it entirely (`invokeClosure = false`, cached replay), and its
cross-process byte reduction is abstracted as `engineFn` applied to the
scratch buffer. -/
def SerializeReducer.Allreduce {D β : Type} [Inhabited D] [Inhabited β]
    (save : D → List β) (load : List β → D)
    (sendrecvobj : List D) (max_nbyte : ℕ)
    (hasPrepare invokeClosure : Bool)
    (engineFn : List (List β) → List (List β)) : SRResult D β :=
  let count := sendrecvobj.length
  let buf0 := List.replicate count (List.replicate max_nbyte default)
  let p := if invokeClosure
    then SerializeReduceClosure.Run save sendrecvobj hasPrepare buf0
    else (buf0, [])
  let buf2 := engineFn p.1
  ⟨(List.range count).map (fun i => load (buf2.getD i [])),
   p.2, totalBytes buf0, p.1, buf2⟩

/-- The argument record of one `engine::Allreduce_` call: buffer, element
byte size, element count, the reduction function, the wire type tag, the
operator tag, and whether a prepare callback was supplied. -/
structure EngineAllreduceCall (α : Type) where
  sendrecvbuf : List α
  elemSize : ℕ
  count : ℕ
  reducer : List α → List α → ℕ → List α
  dtype : engine.mpi.DataType
  otype : engine.mpi.OpType
  hasPrepare : Bool

/-- `rabit::Allreduce<OP,DType>(sendrecvbuf, count, prepare_fun,
prepare_arg)`: delegate to `engine::Allreduce_` passing `op::Reducer<OP,
DType>`, `sizeof(DType)`, `engine::mpi::GetType<DType>()` and
`OP::kType`.  `combine` is `OP::Reduce`, `opk` is `OP::kType`, `st` names
`DType` in the type tag registry and `sizeofDType` is `sizeof(DType)`.
The returned record captures exactly the arguments passed to the
engine. -/
def Allreduce {α : Type} [Inhabited α] (combine : α → α → α)
    (opk : engine.mpi.OpType) (st : engine.mpi.ScalarType)
    (sizeofDType : ℕ) (sendrecvbuf : List α) (count : ℕ)
    (hasPrepare : Bool) : EngineAllreduceCall α :=
  ⟨sendrecvbuf, sizeofDType, count,
   fun src dst len => op.Reducer combine src dst len,
   engine.mpi.GetType st, opk, hasPrepare⟩

/-- Modelled from the spec: the engine combines all participants'
contributions with the reduction function supplied in the call, folding
each further participant's contribution (as the source buffer) into the
accumulated buffer (as the destination); with no other participants the
caller's own buffer is the group result. -/
def engineRun {α : Type} (call : EngineAllreduceCall α)
    (otherContribs : List (List α)) : List α :=
  otherContribs.foldl (fun acc c => call.reducer c acc call.count) call.sendrecvbuf

/-! Helper lemmas shared by the claim theorems. -/

theorem length_loopSet {α : Type} [Inhabited α] (f : ℕ → α → α) (l : List α)
    (n : ℕ) : (loopSet f l n).length = l.length := by
  induction n with
  | zero => rfl
  | succ n ih => simp [loopSet, List.length_set, ih]

theorem getElem?_loopSet {α : Type} [Inhabited α] (f : ℕ → α → α) (l : List α)
    (n j : ℕ) :
    (loopSet f l n)[j]? = if j < n then (l[j]?).map (f j) else l[j]? := by
  induction n generalizing j with
  | zero => simp [loopSet]
  | succ n ih =>
    have hlen : (loopSet f l n).length = l.length := length_loopSet f l n
    have hcur : (loopSet f l n)[n]? = l[n]? := by
      rw [ih n]; simp
    have hgetD : (loopSet f l n).getD n default = (l[n]?).getD default := by
      rw [List.getD_eq_getElem?_getD, hcur]
    rw [loopSet, List.getElem?_set, hlen, hgetD]
    by_cases hnj : n = j
    · subst hnj
      by_cases hl : n < l.length
      · rw [List.getElem?_eq_getElem hl]
        simp [hl, Nat.lt_succ_self]
      · rw [List.getElem?_eq_none (Nat.le_of_not_lt hl)]
        simp [hl]
    · rw [if_neg hnj, ih j]
      by_cases hjn : j < n
      · rw [if_pos hjn, if_pos (by omega)]
      · rw [if_neg hjn, if_neg (by omega)]

theorem Reducer_self_id {α : Type} [Inhabited α] (combine : α → α → α)
    (h : ∀ a, combine a a = a) (l : List α) (n : ℕ) :
    op.Reducer combine l l n = l := by
  apply List.ext_getElem?
  intro j
  rw [op.Reducer, getElem?_loopSet]
  by_cases hj : j < n
  · rw [if_pos hj]
    cases hl : l[j]? with
    | none => rfl
    | some v =>
      have hv : l.getD j default = v := by
        rw [List.getD_eq_getElem?_getD, hl]; rfl
      rw [List.getD_eq_getElem?_getD] at hv
      simp [hv, h]
  · rw [if_neg hj]

theorem Max_Reduce_eq_max {α : Type} [LinearOrder α] (dst src : α) :
    op.Max.Reduce dst src = max dst src := by
  rw [op.Max.Reduce]
  by_cases h : dst < src
  · rw [if_pos h, max_eq_right (le_of_lt h)]
  · rw [if_neg h, max_eq_left (le_of_not_lt h)]

theorem Min_Reduce_eq_min {α : Type} [LinearOrder α] (dst src : α) :
    op.Min.Reduce dst src = min dst src := by
  rw [op.Min.Reduce]
  by_cases h : dst > src
  · rw [if_pos h, min_eq_right (le_of_lt h)]
  · rw [if_neg h, min_eq_left (le_of_not_lt h)]

theorem length_resizeList {α : Type} [Inhabited α] (l : List α) (n : ℕ) :
    (resizeList l n).length = n := by
  simp [resizeList]
  omega

theorem version_runCalls {G L : Type} (calls : List (CkptCall G L))
    (s : CheckpointState G L) :
    VersionNumber (runCalls calls s) = VersionNumber s + calls.length := by
  induction calls generalizing s with
  | nil => rfl
  | cons c cs ih =>
    rw [runCalls, List.foldl_cons]
    have hstep : VersionNumber (applyCall s c) = VersionNumber s + 1 := by
      cases c <;> rfl
    rw [show cs.foldl applyCall (applyCall s c) = runCalls cs (applyCall s c) from rfl,
      ih, hstep, List.length_cons]
    omega

theorem run_fst_getElem? {D β : Type} [Inhabited D] (save : D → List β)
    (objs : List D) (hp : Bool) (slots : List (List β)) (i : ℕ) :
    (SerializeReduceClosure.Run save objs hp slots).1[i]? =
      if i < objs.length
        then (slots[i]?).map (fun sl => encodeSlot sl (save (objs.getD i default)))
        else slots[i]? :=
  getElem?_loopSet _ slots objs.length i

theorem totalBytes_replicate {β : Type} (n m : ℕ) (b : β) :
    totalBytes (List.replicate n (List.replicate m b)) = m * n := by
  simp [totalBytes, List.map_replicate, List.sum_replicate, smul_eq_mul,
    Nat.mul_comm]

/-! The claim theorems. -/

/-- C5: for every ordered scalar value type, `op::Max::Reduce(dst, src)`
assigns `src` exactly when `dst < src` and otherwise leaves `dst`
unchanged, so `dst` ends as the maximum; `op::Min::Reduce` assigns `src`
exactly when `src < dst` and otherwise leaves `dst` unchanged, so `dst`
ends as the minimum; `op::Sum::Reduce` sets `dst` to `dst + src` (shown
both on unbounded integers and on the wrap-around machine integers
`ZMod n`); `op::BitOR::Reduce` sets `dst` to `dst ||| src`.  In the
functional embedding the `const` source argument is immutable by
construction. -/
theorem operator_combine_spec {α : Type} [LinearOrder α] (dst src : α)
    (d2 s2 : ℤ) (n : ℕ) (d3 s3 : ZMod n) (d4 s4 : ℕ) :
    (dst < src → op.Max.Reduce dst src = src) ∧
    (¬ dst < src → op.Max.Reduce dst src = dst) ∧
    op.Max.Reduce dst src = max dst src ∧
    (src < dst → op.Min.Reduce dst src = src) ∧
    (¬ src < dst → op.Min.Reduce dst src = dst) ∧
    op.Min.Reduce dst src = min dst src ∧
    op.Sum.Reduce d2 s2 = d2 + s2 ∧
    op.Sum.Reduce d3 s3 = d3 + s3 ∧
    op.BitOR.Reduce d4 s4 = d4 ||| s4 := by
  refine ⟨?_, ?_, Max_Reduce_eq_max dst src, ?_, ?_, Min_Reduce_eq_min dst src,
    rfl, rfl, rfl⟩
  · intro h
    rw [op.Max.Reduce, if_pos h]
  · intro h
    rw [op.Max.Reduce, if_neg h]
  · intro h
    rw [op.Min.Reduce, if_pos h]
  · intro h
    rw [op.Min.Reduce, if_neg h]

/-- C5 witness: the four combine rules evaluated at concrete inputs. -/
theorem operator_combine_spec_witness :
    ((2 : ℤ) < 5 → op.Max.Reduce (2 : ℤ) 5 = 5) ∧
    (¬ (2 : ℤ) < 5 → op.Max.Reduce (2 : ℤ) 5 = 2) ∧
    op.Max.Reduce (2 : ℤ) 5 = max 2 5 ∧
    ((5 : ℤ) < 2 → op.Min.Reduce (2 : ℤ) 5 = 5) ∧
    (¬ (5 : ℤ) < 2 → op.Min.Reduce (2 : ℤ) 5 = 2) ∧
    op.Min.Reduce (2 : ℤ) 5 = min 2 5 ∧
    op.Sum.Reduce (3 : ℤ) 4 = 3 + 4 ∧
    op.Sum.Reduce (3 : ZMod 8) 4 = 3 + 4 ∧
    op.BitOR.Reduce 5 3 = 5 ||| 3 :=
  operator_combine_spec 2 5 3 4 8 3 4 5 3

/-- C6: the combine functions of Sum, Max, Min and BitOR are associative
and commutative: over every linearly ordered value type for Max and Min,
over the unbounded and the wrap-around machine integers for Sum, and
over the bitwise naturals for BitOR. -/
theorem operator_assoc_comm_spec {α : Type} [LinearOrder α] (a b c : α)
    (x y z : ℤ) (n : ℕ) (u v w : ZMod n) (p q r : ℕ) :
    (op.Max.Reduce (op.Max.Reduce a b) c = op.Max.Reduce a (op.Max.Reduce b c) ∧
      op.Max.Reduce a b = op.Max.Reduce b a) ∧
    (op.Min.Reduce (op.Min.Reduce a b) c = op.Min.Reduce a (op.Min.Reduce b c) ∧
      op.Min.Reduce a b = op.Min.Reduce b a) ∧
    (op.Sum.Reduce (op.Sum.Reduce x y) z = op.Sum.Reduce x (op.Sum.Reduce y z) ∧
      op.Sum.Reduce x y = op.Sum.Reduce y x) ∧
    (op.Sum.Reduce (op.Sum.Reduce u v) w = op.Sum.Reduce u (op.Sum.Reduce v w) ∧
      op.Sum.Reduce u v = op.Sum.Reduce v u) ∧
    (op.BitOR.Reduce (op.BitOR.Reduce p q) r = op.BitOR.Reduce p (op.BitOR.Reduce q r) ∧
      op.BitOR.Reduce p q = op.BitOR.Reduce q p) := by
  simp only [Max_Reduce_eq_max, Min_Reduce_eq_min, op.Sum.Reduce, op.BitOR.Reduce]
  exact ⟨⟨max_assoc a b c, max_comm a b⟩, ⟨min_assoc a b c, min_comm a b⟩,
    ⟨add_assoc x y z, add_comm x y⟩, ⟨add_assoc u v w, add_comm u v⟩,
    ⟨Nat.lor_assoc p q r, Nat.lor_comm p q⟩⟩

/-- C9: Max, Min and BitOR combines are idempotent and `op::Reducer` with
a source buffer equal to the destination buffer is the identity for them;
Sum combines a value with itself to `x + x`, so its self-reduction is not
the identity. -/
theorem operator_idempotence_spec {α : Type} [LinearOrder α] [Inhabited α]
    (x : α) (dst : List α) (len : ℕ) (m : ℕ) (ml : List ℕ) (z : ℤ) :
    op.Max.Reduce x x = x ∧
    op.Min.Reduce x x = x ∧
    op.BitOR.Reduce m m = m ∧
    op.Reducer op.Max.Reduce dst dst len = dst ∧
    op.Reducer op.Min.Reduce dst dst len = dst ∧
    op.Reducer op.BitOR.Reduce ml ml len = ml ∧
    op.Sum.Reduce z z = z + z ∧
    op.Sum.Reduce (1 : ℤ) 1 ≠ 1 := by
  have hmax : ∀ a : α, op.Max.Reduce a a = a := fun a => by
    rw [Max_Reduce_eq_max, max_self]
  have hmin : ∀ a : α, op.Min.Reduce a a = a := fun a => by
    rw [Min_Reduce_eq_min, min_self]
  have hor : ∀ a : ℕ, op.BitOR.Reduce a a = a := fun a => Nat.or_self a
  exact ⟨hmax x, hmin x, hor m, Reducer_self_id _ hmax dst len,
    Reducer_self_id _ hmin dst len, Reducer_self_id _ hor ml len,
    rfl, by decide⟩

/-- C2: every `CheckPoint` / `LazyCheckPoint` call increments
`VersionNumber()` by exactly one, so after any call sequence from the
initial state the version equals the number of calls, the version never
decreases along a sequence, and `LoadCheckPoint` before any checkpoint
returns version 0 with the caller-supplied models untouched. -/
theorem checkpoint_version_spec (G L : Type) (calls pre post : List (CkptCall G L))
    (s : CheckpointState G L) (c : CkptCall G L) (g : G) (l : L) :
    VersionNumber (runCalls calls (initState G L)) = calls.length ∧
    VersionNumber (applyCall s c) = VersionNumber s + 1 ∧
    VersionNumber (runCalls pre (initState G L)) ≤
      VersionNumber (runCalls (pre ++ post) (initState G L)) ∧
    LoadCheckPoint (initState G L) g l = (0, g, l) := by
  refine ⟨?_, ?_, ?_, rfl⟩
  · rw [version_runCalls]
    simp [VersionNumber, initState]
  · cases c <;> rfl
  · rw [version_runCalls, version_runCalls, List.length_append]
    omega

/-- C10: `TrackerPrintf` always hands `TrackerPrint` a string of exactly
1024 bytes: the formatted output is truncated to its first 1023
characters, and the remainder of the string is NUL bytes. -/
theorem trackerPrintf_spec (out : List Char) :
    (TrackerPrintf out).length = 1024 ∧
    TrackerPrintf out =
      out.take 1023 ++ List.replicate (1024 - min out.length 1023) (Char.ofNat 0) := by
  have hle : min out.length 1023 ≤ 1023 := min_le_right _ _
  have hmain : TrackerPrintf out =
      out.take 1023 ++ List.replicate (1024 - min out.length 1023) (Char.ofNat 0) := by
    simp only [TrackerPrintf, vsnprintfModel]
    norm_num
    have h1 : 1024 - (min out.length 1023 + 1) = 1023 - min out.length 1023 := by
      omega
    have h2 : 1024 - min out.length 1023 = (1023 - min out.length 1023) + 1 := by
      omega
    rw [h1, h2, List.replicate_succ]
  refine ⟨?_, hmain⟩
  rw [hmain]
  simp only [List.length_append, List.length_take, List.length_replicate]
  omega

/-- C4: the container Broadcast wrappers first broadcast the length, call
`resize` exactly when the local size differs from the broadcast length,
issue the payload transfer iff the length is non-zero, and leave every
participant holding the root's contents. -/
theorem broadcast_container_spec {α : Type} [Inhabited α]
    (rootData localData : List α) (sizeofElem : ℕ) :
    (Broadcast rootData localData sizeofElem).data = rootData ∧
    (Broadcast rootData localData sizeofElem).resized =
      decide (localData.length ≠ rootData.length) ∧
    (Broadcast rootData localData sizeofElem).trace =
      BEvent.lenBroadcast rootData.length ::
        (if rootData.length ≠ 0
          then [BEvent.payloadBroadcast (rootData.length * sizeofElem)]
          else []) := by
  by_cases hz : rootData.length = 0
  · have hnil : rootData = [] := List.eq_nil_of_length_eq_zero hz
    subst hnil
    by_cases hl : localData.length = 0
    · have : localData = [] := List.eq_nil_of_length_eq_zero hl
      subst this
      exact ⟨rfl, rfl, rfl⟩
    · refine ⟨?_, ?_, ?_⟩ <;>
        simp [Broadcast, resizeList, hl]
  · have hdrop : ∀ l1 : List α, l1.length ≤ rootData.length →
        rootData ++ l1.drop rootData.length = rootData := by
      intro l1 h1
      rw [List.drop_eq_nil_of_le h1, List.append_nil]
    refine ⟨?_, ?_, ?_⟩
    · simp only [Broadcast, if_pos hz]
      by_cases hr : localData.length ≠ rootData.length
      · rw [if_pos hr]
        exact hdrop _ (le_of_eq (length_resizeList localData rootData.length))
      · rw [if_neg hr]
        push_neg at hr
        exact hdrop _ (le_of_eq hr)
    · simp [Broadcast, hz]
    · simp [Broadcast, hz]

/-- C3: `op::Reducer<OP,DType>` sets `dst[i]` to `OP::Reduce` of the old
`dst[i]` and `src[i]` for every `i < len` and leaves elements at indices
at or beyond `len` unchanged (the source buffer is immutable in the
functional embedding); the typed `Allreduce<OP,DType>` entry point passes
the engine exactly this zipped function together with `sizeof(DType)`,
the wire tag `GetType<DType>()` and the operator tag `OP::kType`. -/
theorem reducer_allreduce_dispatch_spec {α : Type} [Inhabited α]
    (combine : α → α → α) (opk : engine.mpi.OpType) (st : engine.mpi.ScalarType)
    (sizeofDType : ℕ) (buf : List α) (count : ℕ) (hasPrepare : Bool)
    (src dst : List α) (len : ℕ) :
    (Allreduce combine opk st sizeofDType buf count hasPrepare).reducer =
      (fun s d l => op.Reducer combine s d l) ∧
    (Allreduce combine opk st sizeofDType buf count hasPrepare).elemSize = sizeofDType ∧
    (Allreduce combine opk st sizeofDType buf count hasPrepare).dtype =
      engine.mpi.GetType st ∧
    (Allreduce combine opk st sizeofDType buf count hasPrepare).otype = opk ∧
    (Allreduce combine opk st sizeofDType buf count hasPrepare).sendrecvbuf = buf ∧
    (Allreduce combine opk st sizeofDType buf count hasPrepare).count = count ∧
    (Allreduce combine opk st sizeofDType buf count hasPrepare).hasPrepare = hasPrepare ∧
    (op.Reducer combine src dst len).length = dst.length ∧
    (∀ i, i < len → (op.Reducer combine src dst len)[i]? =
      (dst[i]?).map (fun d => combine d (src.getD i default))) ∧
    (∀ i, len ≤ i → (op.Reducer combine src dst len)[i]? = dst[i]?) := by
  refine ⟨rfl, rfl, rfl, rfl, rfl, rfl, rfl, length_loopSet _ _ _, ?_, ?_⟩
  · intro i hi
    rw [op.Reducer, getElem?_loopSet, if_pos hi]
  · intro i hi
    rw [op.Reducer, getElem?_loopSet, if_neg (by omega)]

/-- C3 witness: a concrete dispatch of `Allreduce<Sum, int>` on the
buffer `[1, 2, 3]` reduced against source `[10, 20, 30]` with `len = 2`. -/
theorem reducer_allreduce_dispatch_spec_witness :
    (Allreduce op.Sum.Reduce op.Sum.kType engine.mpi.ScalarType.int 4
        [(1 : ℤ), 2, 3] 3 false).reducer =
      (fun s d l => op.Reducer op.Sum.Reduce s d l) ∧
    (Allreduce op.Sum.Reduce op.Sum.kType engine.mpi.ScalarType.int 4
        [(1 : ℤ), 2, 3] 3 false).elemSize = 4 ∧
    (Allreduce op.Sum.Reduce op.Sum.kType engine.mpi.ScalarType.int 4
        [(1 : ℤ), 2, 3] 3 false).dtype =
      engine.mpi.GetType engine.mpi.ScalarType.int ∧
    (Allreduce op.Sum.Reduce op.Sum.kType engine.mpi.ScalarType.int 4
        [(1 : ℤ), 2, 3] 3 false).otype = op.Sum.kType ∧
    (Allreduce op.Sum.Reduce op.Sum.kType engine.mpi.ScalarType.int 4
        [(1 : ℤ), 2, 3] 3 false).sendrecvbuf = [(1 : ℤ), 2, 3] ∧
    (Allreduce op.Sum.Reduce op.Sum.kType engine.mpi.ScalarType.int 4
        [(1 : ℤ), 2, 3] 3 false).count = 3 ∧
    (Allreduce op.Sum.Reduce op.Sum.kType engine.mpi.ScalarType.int 4
        [(1 : ℤ), 2, 3] 3 false).hasPrepare = false ∧
    (op.Reducer op.Sum.Reduce [(10 : ℤ), 20, 30] [(1 : ℤ), 2, 3] 2).length =
      [(1 : ℤ), 2, 3].length ∧
    (∀ i, i < 2 → (op.Reducer op.Sum.Reduce [(10 : ℤ), 20, 30] [(1 : ℤ), 2, 3] 2)[i]? =
      ([(1 : ℤ), 2, 3][i]?).map
        (fun d => op.Sum.Reduce d ([(10 : ℤ), 20, 30].getD i default))) ∧
    (∀ i, 2 ≤ i →
      (op.Reducer op.Sum.Reduce [(10 : ℤ), 20, 30] [(1 : ℤ), 2, 3] 2)[i]? =
        [(1 : ℤ), 2, 3][i]?) :=
  reducer_allreduce_dispatch_spec op.Sum.Reduce op.Sum.kType
    engine.mpi.ScalarType.int 4 [(1 : ℤ), 2, 3] 3 false [(10 : ℤ), 20, 30]
    [(1 : ℤ), 2, 3] 2

/-- C7: `SerializeReducerFunc_<DType>` turns, for every slot `i < len`,
the destination slot into the slot-encoding (from offset 0) of
`tdst.Reduce(tsrc, nbytes)` where `tdst` and `tsrc` are loaded from the
destination and source slot `i`; slots at or beyond `len` are unchanged,
and the source buffer is immutable in the functional embedding. -/
theorem serializeReducerFunc_spec {D β : Type} (load : List β → D)
    (save : D → List β) (reduce : D → D → ℕ → D) (nbytes : ℕ)
    (src dst : List (List β)) (len : ℕ) :
    (SerializeReducerFunc_ load save reduce nbytes src dst len).length = dst.length ∧
    (∀ i, i < len →
      (SerializeReducerFunc_ load save reduce nbytes src dst len)[i]? =
        (dst[i]?).map
          (fun d => encodeSlot d (save (reduce (load d) (load (src.getD i [])) nbytes)))) ∧
    (∀ i, len ≤ i →
      (SerializeReducerFunc_ load save reduce nbytes src dst len)[i]? = dst[i]?) := by
  refine ⟨length_loopSet _ _ _, ?_, ?_⟩
  · intro i hi
    rw [SerializeReducerFunc_, getElem?_loopSet, if_pos hi]
  · intro i hi
    rw [SerializeReducerFunc_, getElem?_loopSet, if_neg (by omega)]

/-- C7 witness: a concrete two-slot reduction where objects are encoded
as singleton byte lists and combined by addition. -/
theorem serializeReducerFunc_spec_witness :
    (SerializeReducerFunc_ (fun l => l.headD 0) (fun n => [n])
        (fun d s _ => d + s) 1 [[10], [20]] [[1], [2]] 2).length =
      [[1], [2]].length ∧
    (∀ i, i < 2 →
      (SerializeReducerFunc_ (fun l => l.headD 0) (fun n : ℕ => [n])
          (fun d s _ => d + s) 1 [[10], [20]] [[1], [2]] 2)[i]? =
        ([[1], [2]][i]?).map
          (fun d => encodeSlot d
            [(fun d s _ => d + s) (d.headD 0) (([[10], [20]].getD i []).headD 0) 1])) ∧
    (∀ i, 2 ≤ i →
      (SerializeReducerFunc_ (fun l => l.headD 0) (fun n : ℕ => [n])
          (fun d s _ => d + s) 1 [[10], [20]] [[1], [2]] 2)[i]? =
        [[1], [2]][i]?) :=
  serializeReducerFunc_spec (fun l => l.headD 0) (fun n => [n])
    (fun d s _ => d + s) 1 [[10], [20]] [[1], [2]] 2

/-- C1: `SerializeReducer<DType>::Allreduce` sets up a scratch buffer of
exactly `max_nbyte * count` bytes; when the engine invokes the closure,
`prepare_fun` (if non-null) runs exactly once and before any encoding,
and each `sendrecvobj[i]` is saved into the `max_nbyte`-aligned slot `i`;
when the engine skips the closure (cached replay), `prepare_fun` never
runs and nothing is encoded; after the engine returns, each
`sendrecvobj[i]` is overwritten by loading slot `i` of the buffer. -/
theorem serializeReducer_allreduce_spec {D β : Type} [Inhabited D] [Inhabited β]
    (save : D → List β) (load : List β → D) (objs : List D) (max_nbyte : ℕ)
    (hasPrepare invokeClosure : Bool)
    (engineFn : List (List β) → List (List β)) :
    (SerializeReducer.Allreduce save load objs max_nbyte hasPrepare
      invokeClosure engineFn).scratchBytes = max_nbyte * objs.length ∧
    (SerializeReducer.Allreduce save load objs max_nbyte hasPrepare
      invokeClosure engineFn).trace =
      (if invokeClosure
        then (if hasPrepare then [SREvent.prepare] else [])
          ++ (List.range objs.length).map SREvent.encode
        else []) ∧
    (SerializeReducer.Allreduce save load objs max_nbyte hasPrepare
      invokeClosure engineFn).trace.count SREvent.prepare =
      (if invokeClosure && hasPrepare then 1 else 0) ∧
    (invokeClosure = true → ∀ i, i < objs.length →
      (SerializeReducer.Allreduce save load objs max_nbyte hasPrepare
        invokeClosure engineFn).sentBuf[i]? =
        some (encodeSlot (List.replicate max_nbyte default)
          (save (objs.getD i default)))) ∧
    (invokeClosure = false →
      (SerializeReducer.Allreduce save load objs max_nbyte hasPrepare
        invokeClosure engineFn).trace = [] ∧
      (SerializeReducer.Allreduce save load objs max_nbyte hasPrepare
        invokeClosure engineFn).sentBuf =
        List.replicate objs.length (List.replicate max_nbyte default)) ∧
    (SerializeReducer.Allreduce save load objs max_nbyte hasPrepare
      invokeClosure engineFn).recvBuf =
      engineFn ((SerializeReducer.Allreduce save load objs max_nbyte hasPrepare
        invokeClosure engineFn).sentBuf) ∧
    (SerializeReducer.Allreduce save load objs max_nbyte hasPrepare
      invokeClosure engineFn).objs.length = objs.length ∧
    (∀ i, i < objs.length →
      (SerializeReducer.Allreduce save load objs max_nbyte hasPrepare
        invokeClosure engineFn).objs[i]? =
        some (load ((SerializeReducer.Allreduce save load objs max_nbyte
          hasPrepare invokeClosure engineFn).recvBuf.getD i []))) := by
  have hnm : List.count SREvent.prepare
      ((List.range objs.length).map SREvent.encode) = 0 := by
    rw [List.count_eq_zero]
    simp
  have hobjs : (SerializeReducer.Allreduce save load objs max_nbyte hasPrepare
      invokeClosure engineFn).objs =
      (List.range objs.length).map (fun j =>
        load ((SerializeReducer.Allreduce save load objs max_nbyte hasPrepare
          invokeClosure engineFn).recvBuf.getD j [])) := rfl
  refine ⟨?_, ?_, ?_, ?_, ?_, rfl, ?_, ?_⟩
  · exact totalBytes_replicate objs.length max_nbyte default
  · cases invokeClosure <;>
      simp [SerializeReducer.Allreduce, SerializeReduceClosure.Run]
  · cases invokeClosure <;> cases hasPrepare <;>
      simp [SerializeReducer.Allreduce, SerializeReduceClosure.Run,
        List.count_cons_self, hnm]
  · intro hinv i hi
    subst hinv
    show (SerializeReduceClosure.Run save objs hasPrepare
      (List.replicate objs.length (List.replicate max_nbyte default))).1[i]? = _
    rw [run_fst_getElem?, if_pos hi, List.getElem?_replicate, if_pos hi]
    rfl
  · intro hinv
    subst hinv
    exact ⟨rfl, rfl⟩
  · rw [hobjs]
    simp
  · intro i hi
    rw [hobjs, List.getElem?_map, List.getElem?_range hi]
    rfl

/-- C1 witness: a concrete serialize-reduce call with two objects encoded
as singleton byte lists, one-byte slots, a prepare callback present, the
closure invoked, and an engine that returns the buffer unchanged. -/
theorem serializeReducer_allreduce_spec_witness :
    (SerializeReducer.Allreduce (fun n : ℕ => [n]) (fun l => l.headD 0)
      [3, 7] 1 true true id).scratchBytes = 1 * [3, 7].length ∧
    (SerializeReducer.Allreduce (fun n : ℕ => [n]) (fun l => l.headD 0)
      [3, 7] 1 true true id).trace =
      (if true
        then (if true then [SREvent.prepare] else [])
          ++ (List.range [3, 7].length).map SREvent.encode
        else []) ∧
    (SerializeReducer.Allreduce (fun n : ℕ => [n]) (fun l => l.headD 0)
      [3, 7] 1 true true id).trace.count SREvent.prepare =
      (if true && true then 1 else 0) ∧
    (true = true → ∀ i, i < [3, 7].length →
      (SerializeReducer.Allreduce (fun n : ℕ => [n]) (fun l => l.headD 0)
        [3, 7] 1 true true id).sentBuf[i]? =
        some (encodeSlot (List.replicate 1 default)
          [([3, 7].getD i default)])) ∧
    (true = false →
      (SerializeReducer.Allreduce (fun n : ℕ => [n]) (fun l => l.headD 0)
        [3, 7] 1 true true id).trace = [] ∧
      (SerializeReducer.Allreduce (fun n : ℕ => [n]) (fun l => l.headD 0)
        [3, 7] 1 true true id).sentBuf =
        List.replicate [3, 7].length (List.replicate 1 default)) ∧
    (SerializeReducer.Allreduce (fun n : ℕ => [n]) (fun l => l.headD 0)
      [3, 7] 1 true true id).recvBuf =
      id ((SerializeReducer.Allreduce (fun n : ℕ => [n]) (fun l => l.headD 0)
        [3, 7] 1 true true id).sentBuf) ∧
    (SerializeReducer.Allreduce (fun n : ℕ => [n]) (fun l => l.headD 0)
      [3, 7] 1 true true id).objs.length = [3, 7].length ∧
    (∀ i, i < [3, 7].length →
      (SerializeReducer.Allreduce (fun n : ℕ => [n]) (fun l => l.headD 0)
        [3, 7] 1 true true id).objs[i]? =
        some (((SerializeReducer.Allreduce (fun n : ℕ => [n]) (fun l => l.headD 0)
          [3, 7] 1 true true id).recvBuf.getD i []).headD 0)) :=
  serializeReducer_allreduce_spec (fun n : ℕ => [n]) (fun l => l.headD 0)
    [3, 7] 1 true true id

/-- C8: with a single participant the engine folds no further
contribution into the caller's buffer, so the typed Allreduce is the
identity on it; and assuming the round-trip law `load (save x) = x`
through a slot, `SerializeReducer::Allreduce` over a single participant
(engine returns the scratch buffer unchanged) returns every object in
`sendrecvobj` unchanged. -/
theorem single_rank_identity_spec {α D β : Type} [Inhabited α] [Inhabited D]
    [Inhabited β] (combine : α → α → α) (opk : engine.mpi.OpType)
    (st : engine.mpi.ScalarType) (sz : ℕ) (buf : List α) (count : ℕ)
    (hp : Bool) (save : D → List β) (load : List β → D) (objs : List D)
    (max_nbyte : ℕ) (hasPrepare : Bool)
    (hrt : ∀ (x : D) (s : List β), load (encodeSlot s (save x)) = x) :
    engineRun (Allreduce combine opk st sz buf count hp) [] = buf ∧
    (SerializeReducer.Allreduce save load objs max_nbyte hasPrepare true id).objs
      = objs := by
  refine ⟨rfl, ?_⟩
  have hobjs : (SerializeReducer.Allreduce save load objs max_nbyte hasPrepare
      true id).objs =
      (List.range objs.length).map (fun j =>
        load ((SerializeReduceClosure.Run save objs hasPrepare
          (List.replicate objs.length
            (List.replicate max_nbyte default))).1.getD j [])) := rfl
  apply List.ext_getElem?
  intro i
  by_cases hi : i < objs.length
  · rw [hobjs, List.getElem?_map, List.getElem?_range hi]
    have hslot : (SerializeReduceClosure.Run save objs hasPrepare
        (List.replicate objs.length (List.replicate max_nbyte default))).1.getD i [] =
        encodeSlot (List.replicate max_nbyte default) (save (objs.getD i default)) := by
      rw [List.getD_eq_getElem?_getD, run_fst_getElem?, if_pos hi,
        List.getElem?_replicate, if_pos hi]
      rfl
    simp only [Option.map_some']
    rw [hslot, hrt, List.getD_eq_getElem?_getD, List.getElem?_eq_getElem hi]
    rfl
  · have hlen : (SerializeReducer.Allreduce save load objs max_nbyte hasPrepare
        true id).objs.length = objs.length := by
      rw [hobjs]
      simp
    push_neg at hi
    rw [List.getElem?_eq_none (hlen ▸ hi), List.getElem?_eq_none hi]

/-- C8 witness: single-rank `Allreduce<Sum, int>` on `[5]` and a
single-rank serialize-reduce of `[3, 7]` with singleton-byte-list
encoding, whose slot round-trip law holds definitionally. -/
theorem single_rank_identity_spec_witness :
    engineRun (Allreduce op.Sum.Reduce op.Sum.kType engine.mpi.ScalarType.int 4
      [(5 : ℤ)] 1 false) [] = [(5 : ℤ)] ∧
    (SerializeReducer.Allreduce (fun n : ℕ => [n]) (fun l => l.headD 0)
      [3, 7] 1 true true id).objs = [3, 7] :=
  single_rank_identity_spec op.Sum.Reduce op.Sum.kType
    engine.mpi.ScalarType.int 4 [(5 : ℤ)] 1 false (fun n : ℕ => [n])
    (fun l => l.headD 0) [3, 7] 1 true (fun _ _ => rfl)

end Rabit
